import Mathlib

/-!
Verification development for the Instagram profile logger (`main.py`).

The program's pure logic — URL normalization (`normalize_url`, built on
Python's `urllib.parse.urlparse`/`urlunparse`), the regex-based extractors
(`_extract_og_image_from_html`, `_extract_profile_pic_from_jsonish`,
`_extract_follow_counts_from_meta`), the baseline comparison and CSV ledger
(`load_last_pic_url`/`save_last_pic_url`, `log_to_csv`) and the orchestration
in `scrape_and_log` — is embedded shallowly below.  External collaborators
(Selenium driver queries, HTTP requests, the filesystem, clocks) are modelled
by explicit inputs and explicit state threading.  Python library routines
(`urllib.parse`, `html.unescape`, `re`, `str` methods) are modelled at the
fidelity the program exercises: ASCII character classes stand in for the
unicode classes (the program's patterns and hostnames are ASCII), and the
CPython `urlsplit` IPv6/NFKC host *validation* steps that can only reject,
never alter, a URL are modelled by the bracket-mismatch check that
`urlsplit` performs on every netloc.
-/

/-! ## Character classes (ASCII models of the Python predicates) -/

/-- `str.isalpha` restricted by `isascii`, as used by `urlsplit`'s scheme guard. -/
def pyIsAlpha (c : Char) : Bool :=
  (65 ≤ c.toNat && c.toNat ≤ 90) || (97 ≤ c.toNat && c.toNat ≤ 122)

/-- ASCII decimal digit (`\d` on the ASCII plane). -/
def pyIsDigit (c : Char) : Bool :=
  48 ≤ c.toNat && c.toNat ≤ 57

/-- Membership in `urllib.parse.scheme_chars`
(letters, digits and `+` (43), `-` (45), `.` (46)). -/
def schemeChar (c : Char) : Bool :=
  pyIsAlpha c || pyIsDigit c || c.toNat == 43 || c.toNat == 45 || c.toNat == 46

/-- Membership in `_WHATWG_C0_CONTROL_OR_SPACE` (code points `0x00`–`0x20`). -/
def isC0OrSpace (c : Char) : Bool :=
  c.toNat ≤ 32

/-- Membership in `_UNSAFE_URL_BYTES_TO_REMOVE` (tab, CR, LF). -/
def isUnsafeByte (c : Char) : Bool :=
  c.toNat == 9 || c.toNat == 13 || c.toNat == 10

/-- ASCII whitespace, the model of Python's `str.strip()` / `\s` class. -/
def pyIsSpace (c : Char) : Bool :=
  c.toNat == 32 || c.toNat == 9 || c.toNat == 10 || c.toNat == 13 || c.toNat == 11 || c.toNat == 12

/-- The character class `[\d,.]` of the follower/following count patterns. -/
def isCountChar (c : Char) : Bool :=
  pyIsDigit c || c == ',' || c == '.'

/-- ASCII lower-casing, the model of `str.lower()` on the (ASCII-guarded)
scheme and of `re.IGNORECASE` on the program's ASCII patterns. -/
def lowerChar (c : Char) : Char :=
  if 65 ≤ c.toNat ∧ c.toNat ≤ 90 then Char.ofNat (c.toNat + 32) else c

theorem char_toNat_ofNat (n : Nat) (h : n < 55296) : (Char.ofNat n).toNat = n := by
  have hv : n.isValidChar := Or.inl h
  simp [Char.ofNat, hv, Char.ofNatAux, Char.toNat, UInt32.toNat, UInt32.ofNatCore]

theorem char_eq_of_toNat_eq {a b : Char} (h : a.toNat = b.toNat) : a = b := by
  apply Char.ext
  have : a.val.toNat = b.val.toNat := h
  exact UInt32.toNat.inj this

theorem lowerChar_toNat (c : Char) :
    (lowerChar c).toNat = if 65 ≤ c.toNat ∧ c.toNat ≤ 90 then c.toNat + 32 else c.toNat := by
  unfold lowerChar
  by_cases h : 65 ≤ c.toNat ∧ c.toNat ≤ 90
  · rw [if_pos h, if_pos h, char_toNat_ofNat]
    omega
  · rw [if_neg h, if_neg h]

theorem lowerChar_of_not_upper {c : Char} (h : ¬(65 ≤ c.toNat ∧ c.toNat ≤ 90)) :
    lowerChar c = c := by
  unfold lowerChar
  rw [if_neg h]

theorem lowerChar_idem (c : Char) : lowerChar (lowerChar c) = lowerChar c := by
  by_cases h : 65 ≤ c.toNat ∧ c.toNat ≤ 90
  · apply lowerChar_of_not_upper
    rw [lowerChar_toNat, if_pos h]
    omega
  · rw [lowerChar_of_not_upper h, lowerChar_of_not_upper h]

theorem pyIsAlpha_lowerChar {c : Char} (h : pyIsAlpha c = true) :
    pyIsAlpha (lowerChar c) = true := by
  simp [pyIsAlpha] at h ⊢
  rw [lowerChar_toNat]
  split <;> omega

theorem schemeChar_lowerChar {c : Char} (h : schemeChar c = true) :
    schemeChar (lowerChar c) = true := by
  simp [schemeChar, pyIsAlpha, pyIsDigit] at h ⊢
  rw [lowerChar_toNat]
  split <;> omega

theorem schemeChar_toNat_facts {c : Char} (h : schemeChar c = true) :
    43 ≤ c.toNat ∧ c.toNat ≤ 122 ∧ c.toNat ≠ 58 ∧ c.toNat ≠ 47 ∧ c.toNat ≠ 63 ∧ c.toNat ≠ 35 := by
  simp [schemeChar, pyIsAlpha, pyIsDigit] at h
  omega

/-! ## Model of `urllib.parse.urlsplit` / `urlunsplit`

`normalize_url` in `main.py` is

    p = urlparse(url)
    return urlunparse(p._replace(query="", fragment=""))

`urlparse` additionally splits `;params` off the path and `urlunparse` glues
them back with the same `;`, an exact round trip, so the params split is not
modelled separately: the params stay inside `path`. -/

structure UrlSplit where
  scheme : List Char
  netloc : List Char
  path : List Char
  query : List Char
  frag : List Char
deriving DecidableEq, Repr

/-- The WHATWG cleaning `urlsplit` applies first: strip leading C0
controls/space, then delete every tab/CR/LF. -/
def cleanUrl (l : List Char) : List Char :=
  (l.dropWhile isC0OrSpace).filter (fun c => !isUnsafeByte c)

/-- Scheme recognition of `urlsplit`: a `:` at index `i > 0`, first character
an ASCII letter, everything before the colon in `scheme_chars`; the scheme is
lower-cased.  Returns `(scheme, remainder)`, with `scheme = []` when no scheme
is recognized (then the remainder is the whole input). -/
def splitScheme (u : List Char) : List Char × List Char :=
  let pre := u.takeWhile (· != ':')
  let post := u.dropWhile (· != ':')
  match post with
  | [] => ([], u)
  | _ :: rest =>
    match pre with
    | [] => ([], u)
    | c :: _ =>
      if pyIsAlpha c && pre.all schemeChar then (pre.map lowerChar, rest) else ([], u)

/-- `True` for characters that may stay inside a netloc (`_splitnetloc` stops
at the first `/`, `?` or `#`). -/
def notDelim (c : Char) : Bool :=
  !(c == '/' || c == '?' || c == '#')

/-- Netloc recognition of `urlsplit`: only when the remainder starts with
`//`; the netloc then runs to the first `/`, `?` or `#`. -/
def splitNetloc (l : List Char) : List Char × List Char :=
  match l with
  | '/' :: '/' :: rest => (rest.takeWhile notDelim, rest.dropWhile notDelim)
  | _ => ([], l)

/-- `url.split(c, 1)` when `c` occurs, `(url, "")` otherwise. -/
def cutAtFirst (ch : Char) (l : List Char) : List Char × List Char :=
  (l.takeWhile (· != ch), (l.dropWhile (· != ch)).drop 1)

/-- The `Invalid IPv6 URL` check of `urlsplit`: a `[` without `]` (or the
converse) in the netloc raises `ValueError`. -/
def bracketMismatch (nl : List Char) : Bool :=
  (nl.contains '[') != (nl.contains ']')

/-- Model of `urllib.parse.urlsplit(url)` (with `urlparse`'s params left
inside the path, see above). -/
def pyUrlsplit (u : List Char) : Except String UrlSplit :=
  let u1 := cleanUrl u
  let sres := splitScheme u1
  let nres := splitNetloc sres.2
  if bracketMismatch nres.1 then .error "Invalid IPv6 URL"
  else
    let fres := cutAtFirst '#' nres.2
    let qres := cutAtFirst '?' fres.1
    .ok ⟨sres.1, nres.1, qres.1, qres.2, fres.2⟩

/-- The `if url and url[:1] != '/': url = '/' + url` adjustment of
`urlunsplit` before prepending `//netloc`. -/
def pathAdjust (path : List Char) : List Char :=
  match path with
  | [] => []
  | c :: _ => if c = '/' then path else '/' :: path

/-- Model of `urlunsplit((scheme, netloc, path, "", ""))`, the serialisation
`normalize_url` performs after blanking query and fragment. -/
def pyUrlunsplitNoQF (scheme netloc path : List Char) : List Char :=
  let url :=
    if netloc ≠ [] ∨ path.take 2 = ['/', '/'] then
      '/' :: '/' :: (netloc ++ pathAdjust path)
    else path
  if scheme ≠ [] then scheme ++ ':' :: url else url

/-- `normalize_url` from `main.py`: empty input is returned as is; otherwise
parse, blank query and fragment, re-serialize.  A `ValueError` raised by
`urlparse` propagates as `.error`. -/
def normalize_url (s : String) : Except String String :=
  if s = "" then .ok s
  else
    match pyUrlsplit s.toList with
    | .error e => .error e
    | .ok sp => .ok (pyUrlunsplitNoQF sp.scheme sp.netloc sp.path).asString

example : normalize_url "https://cdn.example.com/v/pic.jpg?cb=12345#frag" =
    .ok "https://cdn.example.com/v/pic.jpg" := rfl

example : normalize_url "HTTP://Host/p?q" = .ok "http://Host/p" := rfl

example : normalize_url "" = .ok "" := rfl

example : normalize_url "http://[bad/x" = .error "Invalid IPv6 URL" := rfl

/-! ## List helper lemmas for `takeWhile` / `dropWhile` -/

theorem tw_all {α : Type} {q : α → Bool} {l : List α} (h : ∀ c ∈ l, q c = true) :
    l.takeWhile q = l := by
  induction l with
  | nil => rfl
  | cons a t ih =>
    have ha := h a (List.mem_cons_self a t)
    simp [List.takeWhile_cons, ha]
    exact fun c hc => h c (List.mem_cons_of_mem a hc)

theorem dw_all {α : Type} {q : α → Bool} {l : List α} (h : ∀ c ∈ l, q c = true) :
    l.dropWhile q = [] := by
  induction l with
  | nil => rfl
  | cons a t ih =>
    have ha := h a (List.mem_cons_self a t)
    simp [List.dropWhile_cons, ha]
    exact fun c hc => h c (List.mem_cons_of_mem a hc)

theorem tw_append_all {α : Type} {q : α → Bool} {l1 l2 : List α}
    (h : ∀ c ∈ l1, q c = true) :
    (l1 ++ l2).takeWhile q = l1 ++ l2.takeWhile q := by
  induction l1 with
  | nil => rfl
  | cons a t ih =>
    have ha := h a (List.mem_cons_self a t)
    simp [List.takeWhile_cons, ha]
    exact ih fun c hc => h c (List.mem_cons_of_mem a hc)

theorem dw_append_all {α : Type} {q : α → Bool} {l1 l2 : List α}
    (h : ∀ c ∈ l1, q c = true) :
    (l1 ++ l2).dropWhile q = l2.dropWhile q := by
  induction l1 with
  | nil => rfl
  | cons a t ih =>
    have ha := h a (List.mem_cons_self a t)
    simp [List.dropWhile_cons, ha]
    exact ih fun c hc => h c (List.mem_cons_of_mem a hc)

theorem mem_tw {α : Type} {q : α → Bool} {a : α} {l : List α} (h : a ∈ l.takeWhile q) :
    q a = true ∧ a ∈ l := by
  induction l with
  | nil => simp [List.takeWhile] at h
  | cons b t ih =>
    rw [List.takeWhile_cons] at h
    by_cases hb : q b = true
    · rw [if_pos hb] at h
      rcases List.mem_cons.mp h with h1 | h2
      · subst h1; exact ⟨hb, List.mem_cons_self a t⟩
      · have := ih h2
        exact ⟨this.1, List.mem_cons_of_mem b this.2⟩
    · rw [if_neg hb] at h
      simp at h

theorem mem_dw {α : Type} {q : α → Bool} {a : α} {l : List α} (h : a ∈ l.dropWhile q) :
    a ∈ l := by
  induction l with
  | nil => simp [List.dropWhile] at h
  | cons b t ih =>
    rw [List.dropWhile_cons] at h
    by_cases hb : q b = true
    · rw [if_pos hb] at h
      exact List.mem_cons_of_mem b (ih h)
    · rw [if_neg hb] at h
      exact h

theorem dw_shape {α : Type} (q : α → Bool) (l : List α) :
    l.dropWhile q = [] ∨ ∃ a t, l.dropWhile q = a :: t ∧ q a = false := by
  induction l with
  | nil => exact Or.inl rfl
  | cons b t ih =>
    rw [List.dropWhile_cons]
    by_cases hb : q b = true
    · rw [if_pos hb]; exact ih
    · rw [if_neg hb]
      exact Or.inr ⟨b, t, rfl, Bool.eq_false_iff.mpr hb⟩

theorem tw_head {α : Type} {q : α → Bool} {l : List α} {c : α} {t : List α}
    (h : l.takeWhile q = c :: t) : q c = true ∧ ∃ t2, l = c :: t2 := by
  cases l with
  | nil => simp [List.takeWhile] at h
  | cons b u =>
    rw [List.takeWhile_cons] at h
    by_cases hb : q b = true
    · rw [if_pos hb] at h
      have hbc : b = c := (List.cons.injEq b _ c t).mp h |>.1
      subst hbc
      exact ⟨hb, u, rfl⟩
    · rw [if_neg hb] at h
      simp at h

theorem tw_decomp {α : Type} (q : α → Bool) (l : List α) :
    ∃ t, l = l.takeWhile q ++ t :=
  ⟨l.dropWhile q, (List.takeWhile_append_dropWhile (p := q) (l := l)).symm⟩

/-! ## Characterizations of the `urlsplit` stages -/

theorem schemeChar_ne_colon {c : Char} (h : schemeChar c = true) : (c != ':') = true := by
  rcases schemeChar_toNat_facts h with ⟨-, -, h58, -⟩
  simp only [bne_iff_ne, ne_eq]
  intro hc
  subst hc
  exact h58 rfl

theorem schemeChar_clean {c : Char} (h : schemeChar c = true) :
    isUnsafeByte c = false ∧ isC0OrSpace c = false := by
  simp only [schemeChar, pyIsAlpha, pyIsDigit] at h
  simp only [isUnsafeByte, isC0OrSpace]
  simp at h ⊢
  omega

theorem splitScheme_append {s r : List Char} {c : Char} {cs : List Char}
    (hs : s = c :: cs) (halpha : pyIsAlpha c = true) (hall : s.all schemeChar = true)
    (hlow : s.map lowerChar = s) :
    splitScheme (s ++ ':' :: r) = (s, r) := by
  have hql : ∀ d ∈ s, (d != ':') = true := by
    intro d hd
    rw [List.all_eq_true] at hall
    exact schemeChar_ne_colon (hall d hd)
  have htw : (s ++ ':' :: r).takeWhile (· != ':') = s := by
    rw [tw_append_all hql]
    simp [List.takeWhile_cons]
  have hdw : (s ++ ':' :: r).dropWhile (· != ':') = ':' :: r := by
    rw [dw_append_all hql]
    simp [List.dropWhile_cons]
  have hall2 : (c :: cs).all schemeChar = true := by rw [← hs]; exact hall
  have hguard : (pyIsAlpha c && (c :: cs).all schemeChar) = true := by
    rw [halpha, hall2]
    rfl
  unfold splitScheme
  simp only [htw, hdw]
  subst hs
  simp only [hguard]
  simp [hlow]

theorem splitScheme_head_not_alpha {l : List Char} {c : Char} {t : List Char}
    (h : l = c :: t) (ha : pyIsAlpha c = false) : splitScheme l = ([], l) := by
  subst h
  unfold splitScheme
  by_cases hc : (c != ':') = true
  · simp only [List.takeWhile_cons, List.dropWhile_cons, hc, if_pos]
    rcases dw_shape (· != ':') t with hd | ⟨a, t2, hd, -⟩
    · simp [hd, hc]
    · simp [hd, hc, ha]
  · have hc2 : (c != ':') = false := Bool.eq_false_iff.mpr hc
    simp [List.takeWhile_cons, List.dropWhile_cons, hc2]

theorem splitScheme_cases (u : List Char) :
    splitScheme u = ([], u) ∨
    ∃ pre rest c cs, pre = c :: cs ∧ pyIsAlpha c = true ∧ pre.all schemeChar = true ∧
      u = pre ++ ':' :: rest ∧ splitScheme u = (pre.map lowerChar, rest) := by
  rcases dw_shape (· != ':') u with hd | ⟨a, rest, hd, ha⟩
  · left
    unfold splitScheme
    simp [hd]
  · have hacol : a = ':' := by
      simpa using ha
    subst hacol
    have hu : u = u.takeWhile (· != ':') ++ ':' :: rest := by
      conv_lhs => rw [← List.takeWhile_append_dropWhile (p := (· != ':')) (l := u)]
      rw [hd]
    cases hpre : u.takeWhile (· != ':') with
    | nil =>
      left
      unfold splitScheme
      simp [hd, hpre]
    | cons c cs =>
      by_cases hg : (pyIsAlpha c && (c :: cs).all schemeChar) = true
      · right
        have hg2 := hg
        simp only [Bool.and_eq_true] at hg2
        refine ⟨c :: cs, rest, c, cs, rfl, hg2.1, hg2.2, ?_, ?_⟩
        · rw [← hpre]; exact hu
        · unfold splitScheme
          simp only [hd, hpre, hg]
          simp
      · left
        have hg2 : (pyIsAlpha c && (c :: cs).all schemeChar) = false := Bool.eq_false_iff.mpr hg
        unfold splitScheme
        simp only [hd, hpre, hg2]
        simp

theorem splitScheme_prefix_fail {u p t : List Char}
    (hu : splitScheme u = ([], u)) (hp : u = p ++ t) : splitScheme p = ([], p) := by
  rcases dw_shape (· != ':') p with hd | ⟨a, rest, hd, ha⟩
  · unfold splitScheme
    simp [hd]
  · have hacol : a = ':' := by simpa using ha
    subst hacol
    have hpdec : p = p.takeWhile (· != ':') ++ ':' :: rest := by
      conv_lhs => rw [← List.takeWhile_append_dropWhile (p := (· != ':')) (l := p)]
      rw [hd]
    have hqall : ∀ d ∈ p.takeWhile (· != ':'), (d != ':') = true := fun d hdm => (mem_tw hdm).1
    have hutw : u.takeWhile (· != ':') = p.takeWhile (· != ':') := by
      rw [hp]
      conv_lhs => rw [hpdec]
      rw [List.append_assoc, tw_append_all hqall]
      simp [List.takeWhile_cons]
    have hudw : u.dropWhile (· != ':') = ':' :: (rest ++ t) := by
      rw [hp]
      conv_lhs => rw [hpdec]
      rw [List.append_assoc, dw_append_all hqall]
      simp [List.dropWhile_cons]
    cases hpre : p.takeWhile (· != ':') with
    | nil =>
      unfold splitScheme
      simp [hd, hpre]
    | cons c cs =>
      by_cases hg : (pyIsAlpha c && (c :: cs).all schemeChar) = true
      · exfalso
        have heq : splitScheme u = ((c :: cs).map lowerChar, rest ++ t) := by
          unfold splitScheme
          simp only [hudw, hutw, hpre, hg]
          simp
        rw [hu] at heq
        have h2 : ([] : List Char) = (c :: cs).map lowerChar := congrArg Prod.fst heq
        simp at h2
      · have hg2 : (pyIsAlpha c && (c :: cs).all schemeChar) = false := Bool.eq_false_iff.mpr hg
        unfold splitScheme
        simp only [hd, hpre, hg2]
        simp

theorem splitNetloc_cons_cons {nl p : List Char}
    (hnl : ∀ c ∈ nl, notDelim c = true) (hp : p = [] ∨ ∃ t, p = '/' :: t) :
    splitNetloc ('/' :: '/' :: (nl ++ p)) = (nl, p) := by
  have htw : (nl ++ p).takeWhile notDelim = nl := by
    rcases hp with hp | ⟨t, hp⟩
    · subst hp
      rw [List.append_nil]
      exact tw_all hnl
    · subst hp
      rw [tw_append_all hnl]
      simp [List.takeWhile_cons, notDelim]
  have hdw : (nl ++ p).dropWhile notDelim = p := by
    rcases hp with hp | ⟨t, hp⟩
    · subst hp
      rw [List.append_nil]
      exact dw_all hnl
    · subst hp
      rw [dw_append_all hnl]
      simp [List.dropWhile_cons, notDelim]
  unfold splitNetloc
  simp [htw, hdw]

theorem splitNetloc_not_slashslash {l : List Char} (h : l.take 2 ≠ ['/', '/']) :
    splitNetloc l = ([], l) := by
  unfold splitNetloc
  split
  · exact absurd rfl h
  · rfl

theorem splitNetloc_cases (l : List Char) :
    (splitNetloc l = ([], l)) ∨
    (∃ rest, l = '/' :: '/' :: rest ∧
      splitNetloc l = (rest.takeWhile notDelim, rest.dropWhile notDelim)) := by
  unfold splitNetloc
  split
  · rename_i rest
    right
    exact ⟨rest, rfl, rfl⟩
  · left
    rfl

theorem cutAtFirst_all {ch : Char} {l : List Char} (h : ∀ c ∈ l, (c != ch) = true) :
    cutAtFirst ch l = (l, []) := by
  unfold cutAtFirst
  rw [tw_all h, dw_all h]
  rfl

theorem cleanUrl_eq_self {l : List Char}
    (h1 : ∀ c ∈ l, isUnsafeByte c = false)
    (h2 : l = [] ∨ ∃ c t, l = c :: t ∧ isC0OrSpace c = false) : cleanUrl l = l := by
  unfold cleanUrl
  have hdw : l.dropWhile isC0OrSpace = l := by
    rcases h2 with h2 | ⟨c, t, h2, hc⟩
    · subst h2; rfl
    · subst h2
      simp [List.dropWhile_cons, hc]
  rw [hdw]
  apply List.filter_eq_self.mpr
  intro a ha
  simp [h1 a ha]

/-! ## Invariants of parsed components and the reparse property -/

theorem pyIsAlpha_clean {c : Char} (h : pyIsAlpha c = true) :
    isC0OrSpace c = false ∧ isUnsafeByte c = false := by
  simp only [pyIsAlpha] at h
  simp only [isC0OrSpace, isUnsafeByte]
  simp at h ⊢
  omega

/-- The invariants that the scheme, netloc and path produced by a successful
`pyUrlsplit` satisfy; exactly what is needed for `pyUrlunsplitNoQF` output to
re-parse to the same components. -/
structure GoodSplit (s nl p : List Char) : Prop where
  scheme_shape : s = [] ∨ ∃ c cs, s = c :: cs ∧ pyIsAlpha c = true ∧
    s.all schemeChar = true ∧ s.map lowerChar = s
  netloc_chars : ∀ c ∈ nl, notDelim c = true
  netloc_brackets : nl.contains '[' = nl.contains ']'
  path_chars : ∀ c ∈ p, (c != '#') = true ∧ (c != '?') = true
  path_after_netloc : nl ≠ [] → p = [] ∨ ∃ t, p = '/' :: t
  no_unsafe : ∀ c, (c ∈ s ∨ c ∈ nl ∨ c ∈ p) → isUnsafeByte c = false
  head_clean : s = [] → nl = [] → (p = [] ∨ ∃ c t, p = c :: t ∧ isC0OrSpace c = false)
  no_scheme_in_path : s = [] → nl = [] → p.take 2 ≠ ['/', '/'] → splitScheme p = ([], p)

theorem take_two_eq_slash {p : List Char} (h : p.take 2 = ['/', '/']) :
    ∃ t, p = '/' :: '/' :: t := by
  cases p with
  | nil => simp at h
  | cons a t =>
    cases t with
    | nil => simp at h
    | cons b u =>
      simp [List.take] at h
      exact ⟨u, by rw [h.1, h.2]⟩

theorem pathAdjust_eq {p : List Char} (hp : p = [] ∨ ∃ t, p = '/' :: t) :
    pathAdjust p = p := by
  rcases hp with h | ⟨t, h⟩ <;> subst h <;> simp [pathAdjust]

theorem parse_unsplit_of_good {s nl p : List Char} (g : GoodSplit s nl p) :
    pyUrlsplit (pyUrlunsplitNoQF s nl p) = .ok ⟨s, nl, p, [], []⟩ := by
  have hbr : bracketMismatch nl = false := by
    unfold bracketMismatch
    rw [g.netloc_brackets]
    simp
  have hcut1 : cutAtFirst '#' p = (p, []) := cutAtFirst_all fun c hc => (g.path_chars c hc).1
  have hcut2 : cutAtFirst '?' p = (p, []) := cutAtFirst_all fun c hc => (g.path_chars c hc).2
  by_cases hcond : nl ≠ [] ∨ p.take 2 = ['/', '/']
  · have hpshape : p = [] ∨ ∃ t, p = '/' :: t := by
      rcases hcond with hnl | hpp
      · exact g.path_after_netloc hnl
      · rcases take_two_eq_slash hpp with ⟨t, h⟩
        exact Or.inr ⟨'/' :: t, h⟩
    have hadj := pathAdjust_eq hpshape
    have hnet : splitNetloc ('/' :: '/' :: (nl ++ p)) = (nl, p) :=
      splitNetloc_cons_cons g.netloc_chars hpshape
    have hcleancore : cleanUrl ('/' :: '/' :: (nl ++ p)) = '/' :: '/' :: (nl ++ p) := by
      apply cleanUrl_eq_self
      · intro d hd
        simp only [List.mem_cons, List.mem_append] at hd
        rcases hd with h | h | h | h
        · subst h; rfl
        · subst h; rfl
        · exact g.no_unsafe d (Or.inr (Or.inl h))
        · exact g.no_unsafe d (Or.inr (Or.inr h))
      · exact Or.inr ⟨'/', '/' :: (nl ++ p), rfl, rfl⟩
    rcases g.scheme_shape with hs | ⟨c, cs, hs, halpha, hall, hlow⟩
    · subst hs
      have hv : pyUrlunsplitNoQF [] nl p = '/' :: '/' :: (nl ++ p) := by
        simp only [pyUrlunsplitNoQF, hadj]
        rw [if_pos hcond]
        simp
      rw [hv]
      have hscheme : splitScheme ('/' :: '/' :: (nl ++ p)) = ([], '/' :: '/' :: (nl ++ p)) :=
        splitScheme_head_not_alpha rfl (by decide)
      simp only [pyUrlsplit, hcleancore, hscheme, hnet, hbr, hcut1, hcut2]
      rfl
    · have hsne : s ≠ [] := by rw [hs]; simp
      have hv : pyUrlunsplitNoQF s nl p = s ++ ':' :: ('/' :: '/' :: (nl ++ p)) := by
        simp only [pyUrlunsplitNoQF, hadj]
        rw [if_pos hcond, if_pos hsne]
      rw [hv]
      have hclean : cleanUrl (s ++ ':' :: ('/' :: '/' :: (nl ++ p))) =
          s ++ ':' :: ('/' :: '/' :: (nl ++ p)) := by
        apply cleanUrl_eq_self
        · intro d hd
          simp only [List.mem_append, List.mem_cons] at hd
          rcases hd with h | h | h | h | h | h
          · exact g.no_unsafe d (Or.inl h)
          · subst h; rfl
          · subst h; rfl
          · subst h; rfl
          · exact g.no_unsafe d (Or.inr (Or.inl h))
          · exact g.no_unsafe d (Or.inr (Or.inr h))
        · right
          refine ⟨c, cs ++ ':' :: ('/' :: '/' :: (nl ++ p)), by rw [hs]; rfl, ?_⟩
          exact (pyIsAlpha_clean halpha).1
      have hscheme : splitScheme (s ++ ':' :: ('/' :: '/' :: (nl ++ p))) =
          (s, '/' :: '/' :: (nl ++ p)) := splitScheme_append hs halpha hall hlow
      simp only [pyUrlsplit, hclean, hscheme, hnet, hbr, hcut1, hcut2]
      rfl
  · push_neg at hcond
    obtain ⟨hnl, hpt⟩ := hcond
    have hnet : splitNetloc p = ([], p) := splitNetloc_not_slashslash hpt
    rcases g.scheme_shape with hs | ⟨c, cs, hs, halpha, hall, hlow⟩
    · subst hs
      subst hnl
      have hcondneg : ¬(([] : List Char) ≠ [] ∨ p.take 2 = ['/', '/']) := by
        intro hor
        rcases hor with h1 | h2
        · exact h1 rfl
        · exact hpt h2
      have hv : pyUrlunsplitNoQF [] [] p = p := by
        simp only [pyUrlunsplitNoQF]
        rw [if_neg hcondneg]
        simp
      rw [hv]
      have hclean : cleanUrl p = p := by
        apply cleanUrl_eq_self
        · intro d hd
          exact g.no_unsafe d (Or.inr (Or.inr hd))
        · exact g.head_clean rfl rfl
      have hscheme : splitScheme p = ([], p) := g.no_scheme_in_path rfl rfl hpt
      simp only [pyUrlsplit, hclean, hscheme, hnet, hbr, hcut1, hcut2]
      rfl
    · subst hnl
      have hsne : s ≠ [] := by rw [hs]; simp
      have hcondneg : ¬(([] : List Char) ≠ [] ∨ p.take 2 = ['/', '/']) := by
        intro hor
        rcases hor with h1 | h2
        · exact h1 rfl
        · exact hpt h2
      have hv : pyUrlunsplitNoQF s [] p = s ++ ':' :: p := by
        simp only [pyUrlunsplitNoQF]
        rw [if_neg hcondneg, if_pos hsne]
      rw [hv]
      have hclean : cleanUrl (s ++ ':' :: p) = s ++ ':' :: p := by
        apply cleanUrl_eq_self
        · intro d hd
          simp only [List.mem_append, List.mem_cons] at hd
          rcases hd with h | h | h
          · exact g.no_unsafe d (Or.inl h)
          · subst h; rfl
          · exact g.no_unsafe d (Or.inr (Or.inr h))
        · right
          refine ⟨c, cs ++ ':' :: p, by rw [hs]; rfl, ?_⟩
          exact (pyIsAlpha_clean halpha).1
      have hscheme : splitScheme (s ++ ':' :: p) = (s, p) := splitScheme_append hs halpha hall hlow
      simp only [pyUrlsplit, hclean, hscheme, hnet, hbr, hcut1, hcut2]
      rfl

theorem cleanUrl_unsafe {l : List Char} : ∀ d ∈ cleanUrl l, isUnsafeByte d = false := by
  intro d hd
  unfold cleanUrl at hd
  have h2 := (List.mem_filter.mp hd).2
  simpa using h2

theorem cleanUrl_head (l : List Char) :
    cleanUrl l = [] ∨ ∃ c t, cleanUrl l = c :: t ∧ isC0OrSpace c = false := by
  unfold cleanUrl
  rcases dw_shape isC0OrSpace l with hd | ⟨a, t, hd, ha⟩
  · left
    rw [hd]
    rfl
  · rw [hd]
    have hau : isUnsafeByte a = false := by
      simp [isUnsafeByte, isC0OrSpace] at ha ⊢
      omega
    right
    refine ⟨a, t.filter (fun c => !isUnsafeByte c), ?_, ha⟩
    simp [List.filter_cons, hau]

theorem notDelim_false {a : Char} (h : notDelim a = false) : a = '/' ∨ a = '?' ∨ a = '#' := by
  simp [notDelim] at h
  tauto

theorem splitScheme_nil : splitScheme ([] : List Char) = ([], []) := rfl

theorem path_of_r2 (r2 : List Char) :
    (cutAtFirst '?' (cutAtFirst '#' r2).1).1 = (r2.takeWhile (· != '#')).takeWhile (· != '?') := rfl

theorem stripP_chars {r2 : List Char} {d : Char}
    (hd : d ∈ (r2.takeWhile (· != '#')).takeWhile (· != '?')) :
    (d != '#') = true ∧ (d != '?') = true ∧ d ∈ r2 := by
  have h1 := mem_tw hd
  have h2 := mem_tw h1.2
  exact ⟨h2.1, h1.1, h2.2⟩

theorem stripP_prefix (r2 : List Char) :
    ∃ t, r2 = (r2.takeWhile (· != '#')).takeWhile (· != '?') ++ t := by
  obtain ⟨t1, h1⟩ := tw_decomp (· != '#') r2
  obtain ⟨t2, h2⟩ := tw_decomp (· != '?') (r2.takeWhile (· != '#'))
  refine ⟨t2 ++ t1, ?_⟩
  rw [← List.append_assoc, ← h2, ← h1]

theorem stripP_head {r2 : List Char} {d : Char} {dp : List Char}
    (h : (r2.takeWhile (· != '#')).takeWhile (· != '?') = d :: dp) :
    ∃ t, r2 = d :: t := by
  have h1 := tw_head h
  obtain ⟨t2, ht2⟩ := h1.2
  have h2 := tw_head ht2
  exact h2.2

/-- Shape of the path when it comes right after a netloc: the remainder after
`_splitnetloc` is empty or starts with `/`, `?` or `#`, so after stripping
fragment and query the path is empty or starts with `/`. -/
theorem stripP_shape (rest2 : List Char) :
    ((rest2.dropWhile notDelim).takeWhile (· != '#')).takeWhile (· != '?') = [] ∨
    ∃ t, ((rest2.dropWhile notDelim).takeWhile (· != '#')).takeWhile (· != '?') = '/' :: t := by
  rcases dw_shape notDelim rest2 with hd | ⟨a, t, hd, ha⟩
  · left
    rw [hd]
    rfl
  · rcases notDelim_false ha with h1 | h1 | h1 <;> subst h1
    · right
      rw [hd]
      simp [List.takeWhile_cons]
    · left
      rw [hd]
      simp [List.takeWhile_cons]
    · left
      rw [hd]
      simp [List.takeWhile_cons]

theorem good_of_parse {u : List Char} {sp : UrlSplit} (h : pyUrlsplit u = .ok sp) :
    GoodSplit sp.scheme sp.netloc sp.path := by
  simp only [pyUrlsplit] at h
  by_cases hbr : bracketMismatch (splitNetloc (splitScheme (cleanUrl u)).2).1 = true
  · rw [if_pos hbr] at h
    exact absurd h (by simp)
  · rw [if_neg hbr] at h
    have hbr2 : bracketMismatch (splitNetloc (splitScheme (cleanUrl u)).2).1 = false :=
      Bool.eq_false_iff.mpr hbr
    injection h with hsp
    subst hsp
    have hmemu : ∀ d ∈ cleanUrl u, isUnsafeByte d = false := cleanUrl_unsafe
    rcases splitScheme_cases (cleanUrl u) with hs | ⟨pre, rest, c, cs, hpre, halpha, hall, hdec, hs⟩ <;>
      rcases splitNetloc_cases (splitScheme (cleanUrl u)).2 with hn | ⟨rest2, hr1, hn⟩
    · -- Case 1a: no scheme, no netloc: r1 = cleanUrl u, r2 = r1
      simp only [hs] at hn hbr2
      simp only [hs, hn, path_of_r2]
      constructor
      · exact Or.inl rfl
      · intro d hd; simp at hd
      · rfl
      ·
        intro d hd
        have := stripP_chars hd
        exact ⟨this.1, this.2.1⟩
      · intro hne; exact absurd rfl hne
      ·
        intro d hd
        rcases hd with hd | hd | hd
        · simp at hd
        · simp at hd
        · exact hmemu d (stripP_chars hd).2.2
      ·
        intro _ _
        rcases cleanUrl_head u with hc | ⟨a, t, hc, ha⟩
        · left
          rw [hc]
          rfl
        · cases hp : ((cleanUrl u).takeWhile (· != '#')).takeWhile (· != '?') with
          | nil => exact Or.inl rfl
          | cons d dp =>
            right
            obtain ⟨t3, ht3⟩ := stripP_head hp
            rw [hc] at ht3
            have hda : a = d := ((List.cons.injEq a t d t3).mp ht3).1
            subst hda
            exact ⟨a, dp, rfl, ha⟩
      ·
        intro _ _ _
        obtain ⟨t, ht⟩ := stripP_prefix (cleanUrl u)
        exact splitScheme_prefix_fail hs ht
    · -- Case 1b: no scheme, netloc present: r1 = cleanUrl u = '/'::'/'::rest2
      simp only [hs] at hn hr1 hbr2
      simp only [hs, hn, path_of_r2]
      constructor
      · exact Or.inl rfl
      ·
        intro d hd
        exact (mem_tw hd).1
      ·
        rw [hn] at hbr2
        simp only [bracketMismatch] at hbr2
        simpa using hbr2
      ·
        intro d hd
        have := stripP_chars hd
        exact ⟨this.1, this.2.1⟩
      ·
        intro _
        exact stripP_shape rest2
      ·
        intro d hd
        rcases hd with hd | hd | hd
        · simp at hd
        · apply hmemu
          rw [hr1]
          have := (mem_tw hd).2
          exact List.mem_cons_of_mem _ (List.mem_cons_of_mem _ this)
        · apply hmemu
          rw [hr1]
          have h2 := mem_dw (stripP_chars hd).2.2
          exact List.mem_cons_of_mem _ (List.mem_cons_of_mem _ h2)
      ·
        intro _ _
        rcases stripP_shape rest2 with hsh | ⟨t, hsh⟩
        · exact Or.inl hsh
        · right
          exact ⟨'/', t, hsh, by decide⟩
      ·
        intro _ _ _
        rcases stripP_shape rest2 with hsh | ⟨t, hsh⟩
        · rw [hsh]
          rfl
        · rw [hsh]
          exact splitScheme_head_not_alpha rfl (by decide)
    · -- Case 2a: scheme present, no netloc: r1 = rest, r2 = rest
      simp only [hs] at hn hbr2
      simp only [hs, hn, path_of_r2]
      have hsall : (pre.map lowerChar).all schemeChar = true := by
        rw [List.all_eq_true] at hall ⊢
        intro d hd
        rw [List.mem_map] at hd
        obtain ⟨e, he, hde⟩ := hd
        subst hde
        exact schemeChar_lowerChar (hall e he)
      have hmemrest : ∀ d ∈ rest, d ∈ cleanUrl u := by
        intro d hd
        rw [hdec]
        exact List.mem_append_right _ (List.mem_cons_of_mem _ hd)
      constructor
      ·
        right
        refine ⟨lowerChar c, cs.map lowerChar, by rw [hpre]; rfl, pyIsAlpha_lowerChar halpha, hsall, ?_⟩
        rw [List.map_map]
        simp [Function.comp_def, lowerChar_idem]
      · intro d hd; simp at hd
      · rfl
      ·
        intro d hd
        have := stripP_chars hd
        exact ⟨this.1, this.2.1⟩
      · intro hne; exact absurd rfl hne
      ·
        intro d hd
        rcases hd with hd | hd | hd
        · rw [List.mem_map] at hd
          obtain ⟨e, he, hde⟩ := hd
          subst hde
          rw [List.all_eq_true] at hall
          exact (schemeChar_clean (schemeChar_lowerChar (hall e he))).1
        · simp at hd
        · exact hmemu d (hmemrest d (stripP_chars hd).2.2)
      ·
        intro hcontra _
        rw [hpre] at hcontra
        simp at hcontra
      ·
        intro hcontra _ _
        rw [hpre] at hcontra
        simp at hcontra
    · -- Case 2b: scheme present, netloc present: rest = '/'::'/'::rest2
      simp only [hs] at hn hr1 hbr2
      simp only [hs, hn, path_of_r2]
      have hsall : (pre.map lowerChar).all schemeChar = true := by
        rw [List.all_eq_true] at hall ⊢
        intro d hd
        rw [List.mem_map] at hd
        obtain ⟨e, he, hde⟩ := hd
        subst hde
        exact schemeChar_lowerChar (hall e he)
      have hmemrest : ∀ d ∈ rest2, d ∈ cleanUrl u := by
        intro d hd
        rw [hdec, hr1]
        apply List.mem_append_right
        exact List.mem_cons_of_mem _ (List.mem_cons_of_mem _ (List.mem_cons_of_mem _ hd))
      constructor
      ·
        right
        refine ⟨lowerChar c, cs.map lowerChar, by rw [hpre]; rfl, pyIsAlpha_lowerChar halpha, hsall, ?_⟩
        rw [List.map_map]
        simp [Function.comp_def, lowerChar_idem]
      ·
        intro d hd
        exact (mem_tw hd).1
      ·
        rw [hn] at hbr2
        simp only [bracketMismatch] at hbr2
        simpa using hbr2
      ·
        intro d hd
        have := stripP_chars hd
        exact ⟨this.1, this.2.1⟩
      ·
        intro _
        exact stripP_shape rest2
      ·
        intro d hd
        rcases hd with hd | hd | hd
        · rw [List.mem_map] at hd
          obtain ⟨e, he, hde⟩ := hd
          subst hde
          rw [List.all_eq_true] at hall
          exact (schemeChar_clean (schemeChar_lowerChar (hall e he))).1
        · exact hmemu d (hmemrest d (mem_tw hd).2)
        · exact hmemu d (hmemrest d (mem_dw (stripP_chars hd).2.2))
      ·
        intro hcontra _
        rw [hpre] at hcontra
        simp at hcontra
      ·
        intro hcontra _ _
        rw [hpre] at hcontra
        simp at hcontra

/-- Normalized URLs are fixed points of `normalize_url`: the shared engine
behind the idempotence property. -/
theorem normalize_url_fix {u v : String} (h : normalize_url u = .ok v) :
    normalize_url v = .ok v := by
  unfold normalize_url at h
  by_cases hu : u = ""
  · rw [if_pos hu] at h
    injection h with h2
    subst h2
    subst hu
    rfl
  · rw [if_neg hu] at h
    cases hps : pyUrlsplit u.toList with
    | error e =>
      rw [hps] at h
      exact absurd h (by simp)
    | ok sp =>
      rw [hps] at h
      injection h with h2
      have hrp := parse_unsplit_of_good (good_of_parse hps)
      by_cases hv : v = ""
      · unfold normalize_url
        rw [if_pos hv]
      · unfold normalize_url
        rw [if_neg hv]
        have htl : v.toList = pyUrlunsplitNoQF sp.scheme sp.netloc sp.path := by
          rw [← h2]
          rfl
        rw [htl]
        simp only [hrp]
        rw [h2]

/-! ## Python string helpers used by `scrape_and_log` -/

/-- Python truthiness of an optional string (`None` and `""` are falsy). -/
def isTruthy : Option String → Bool
  | none => false
  | some s => s != ""

/-- Python `a or b` on optional strings. -/
def pyOr (a b : Option String) : Option String :=
  if isTruthy a then a else b

/-- Python `str.strip()` (ASCII-whitespace model). -/
def pyStrip (s : String) : String :=
  (((s.toList.dropWhile pyIsSpace).reverse.dropWhile pyIsSpace).reverse).asString

/-- Model of `html.unescape`, restricted to the named/numeric character
references relevant to the scraped markup (`&amp;` `&lt;` `&gt;` `&quot;`
`&#39;`); any other `&` is kept verbatim, as CPython does for unrecognized
references. -/
def pyUnescape : List Char → List Char
  | [] => []
  | '&' :: 'a' :: 'm' :: 'p' :: ';' :: rest => '&' :: pyUnescape rest
  | '&' :: 'l' :: 't' :: ';' :: rest => '<' :: pyUnescape rest
  | '&' :: 'g' :: 't' :: ';' :: rest => '>' :: pyUnescape rest
  | '&' :: 'q' :: 'u' :: 'o' :: 't' :: ';' :: rest => '"' :: pyUnescape rest
  | '&' :: '#' :: '3' :: '9' :: ';' :: rest => '\'' :: pyUnescape rest
  | c :: rest => c :: pyUnescape rest

/-- Python `s.replace("\\/", "/")` (left-to-right, non-overlapping). -/
def unescapeSlashes : List Char → List Char
  | '\\' :: '/' :: rest => '/' :: unescapeSlashes rest
  | c :: rest => c :: unescapeSlashes rest
  | [] => []

/-! ## The regular expressions of `main.py`, as executable matchers

The program uses three shapes of pattern: the meta-tag patterns
`<meta[^>]+A=["\']V["\'][^>]+content=["\']([^"\']+)["\']` with
`re.IGNORECASE`, the JSON-ish pattern `"K"\s*:\s*"([^"]+)"`, and the count
patterns `([\d,.]+)\s+followers` / `([\d,.]+)\s+following` with
`re.IGNORECASE`.  `re.search` semantics: start positions are tried left to
right; a greedy `X+` consumes the longest run first and backs off; where the
following token's character set is disjoint from the class (as in
`([^"\']+)["\']`, `[\d,.]+\s`, `\s+f`), backing off cannot help, so the
maximal run followed by a direct check is the exact semantics. -/

/-- Consume `pat` case-insensitively from the front of `s`
(ASCII case folding, the patterns are ASCII). -/
def matchLitCI : List Char → List Char → Option (List Char)
  | [], s => some s
  | _ :: _, [] => none
  | p :: ps, c :: cs => if lowerChar p == lowerChar c then matchLitCI ps cs else none

/-- Consume `pat` case-sensitively from the front of `s`. -/
def matchLitCS : List Char → List Char → Option (List Char)
  | [], s => some s
  | _ :: _, [] => none
  | p :: ps, c :: cs => if p == c then matchLitCS ps cs else none

/-- One character of the class `["\']`. -/
def matchQuote : List Char → Option (List Char)
  | c :: rest => if c == '"' || c == '\'' then some rest else none
  | [] => none

def notQuote (c : Char) : Bool :=
  !(c == '"' || c == '\'')

/-- Greedy backtracking for a `[^>]+` subpattern: `rev` holds (reversed) the
part of the maximal class run currently consumed, `suf` the rest of the
input; try the continuation with the whole run consumed first, then give
characters back one at a time, never consuming less than one.  This is the
regex engine's longest-first order for a class that excludes `>`. -/
def tryBack {α : Type} (k : List Char → Option α) : List Char → List Char → Option α
  | [], _ => none
  | c :: rev, suf =>
    match k suf with
    | some r => some r
    | none => tryBack k rev (c :: suf)

/-- The capturing tail `([^"\']+)["\']`: a maximal nonempty run of non-quote
characters followed by at least one more character (necessarily a quote,
since the run is maximal). -/
def captureToQuote (s : List Char) : Option (List Char) :=
  let cap := s.takeWhile notQuote
  if cap.isEmpty then none
  else if (s.dropWhile notQuote).isEmpty then none
  else some cap

/-- One attempt, at the current position, of
`<meta[^>]+A=["\']V["\'][^>]+content=["\']([^"\']+)["\']` (`re.IGNORECASE`). -/
def metaTagHere (attr value : List Char) (s : List Char) : Option (List Char) :=
  match matchLitCI "<meta".toList s with
  | none => none
  | some s1 =>
    tryBack (fun r =>
      match matchLitCI (attr ++ ['=']) r with
      | none => none
      | some r1 =>
        match matchQuote r1 with
        | none => none
        | some r2 =>
          match matchLitCI value r2 with
          | none => none
          | some r3 =>
            match matchQuote r3 with
            | none => none
            | some r4 =>
              tryBack (fun r5 =>
                match matchLitCI "content=".toList r5 with
                | none => none
                | some r6 =>
                  match matchQuote r6 with
                  | none => none
                  | some r7 => captureToQuote r7)
                (r4.takeWhile (· != '>')).reverse (r4.dropWhile (· != '>')))
      (s1.takeWhile (· != '>')).reverse (s1.dropWhile (· != '>'))

/-- `re.search` of the meta-tag pattern: start positions left to right. -/
def metaTagSearch (attr value : List Char) : List Char → Option (List Char)
  | [] => none
  | s@(_ :: rest) =>
    match metaTagHere attr value s with
    | some g => some g
    | none => metaTagSearch attr value rest

/-- `_extract_og_image_from_html` from `main.py`: `property="og:image"`, then
`name="og:image"`, then `property="og:image:secure_url"`, first hit returned
through `html.unescape`. -/
def extract_og_image_from_html (htmlText : String) : Option String :=
  match metaTagSearch "property".toList "og:image".toList htmlText.toList with
  | some g => some (pyUnescape g).asString
  | none =>
    match metaTagSearch "name".toList "og:image".toList htmlText.toList with
    | some g => some (pyUnescape g).asString
    | none =>
      match metaTagSearch "property".toList "og:image:secure_url".toList htmlText.toList with
      | some g => some (pyUnescape g).asString
      | none => none

/-- One attempt of `"K"\s*:\s*"([^"]+)"` (case-sensitive). -/
def jsonKeyHere (key : List Char) (s : List Char) : Option (List Char) :=
  match matchLitCS ('"' :: (key ++ ['"'])) s with
  | none => none
  | some r1 =>
    match r1.dropWhile pyIsSpace with
    | ':' :: r3 =>
      match r3.dropWhile pyIsSpace with
      | '"' :: r5 =>
        let cap := r5.takeWhile (· != '"')
        if cap.isEmpty then none
        else if (r5.dropWhile (· != '"')).isEmpty then none
        else some cap
      | _ => none
    | _ => none

def jsonKeySearch (key : List Char) : List Char → Option (List Char)
  | [] => none
  | s@(_ :: rest) =>
    match jsonKeyHere key s with
    | some g => some g
    | none => jsonKeySearch key rest

/-- `_extract_profile_pic_from_jsonish` from `main.py`:
`"profile_pic_url_hd"` first, then `"profile_pic_url"`; the hit gets
`\/`-unescaping and `html.unescape`. -/
def extract_profile_pic_from_jsonish (htmlText : String) : Option String :=
  match jsonKeySearch "profile_pic_url_hd".toList htmlText.toList with
  | some g => some (pyUnescape (unescapeSlashes g)).asString
  | none =>
    match jsonKeySearch "profile_pic_url".toList htmlText.toList with
    | some g => some (pyUnescape (unescapeSlashes g)).asString
    | none => none

/-- One attempt of `([\d,.]+)\s+keyword` (`re.IGNORECASE`): a maximal
nonempty `[\d,.]` run, at least one whitespace character, then the keyword. -/
def countHere (keyword : List Char) (s : List Char) : Option (List Char) :=
  match s with
  | [] => none
  | c :: _ =>
    if isCountChar c then
      let run := s.takeWhile isCountChar
      let after := s.dropWhile isCountChar
      if (after.takeWhile pyIsSpace).isEmpty then none
      else
        match matchLitCI keyword (after.dropWhile pyIsSpace) with
        | some _ => some run
        | none => none
    else none

def searchCountBefore (keyword : List Char) : List Char → Option (List Char)
  | [] => none
  | s@(_ :: rest) =>
    match countHere keyword s with
    | some g => some g
    | none => searchCountBefore keyword rest

/-- `fol.group(1).replace(",", "")`. -/
def stripCommas (l : List Char) : List Char :=
  l.filter (· != ',')

/-- `_extract_follow_counts_from_meta` from `main.py`: locate the
`<meta name="description" content="...">` tag, unescape its content, then
search the two count patterns in it; each count has its commas removed.
Returns `(followers, following)`, `None` where nothing matched. -/
def extract_follow_counts_from_meta (htmlText : String) : Option String × Option String :=
  match metaTagSearch "name".toList "description".toList htmlText.toList with
  | none => (none, none)
  | some g =>
    let desc := pyUnescape g
    ((searchCountBefore "followers".toList desc).map (fun r => (stripCommas r).asString),
     (searchCountBefore "following".toList desc).map (fun r => (stripCommas r).asString))

/-! ## Ledger, durable state and orchestration (`scrape_and_log`) -/

/-- One row of `profile_log.csv` (the `entry` dict of `scrape_and_log`). -/
structure LogEntry where
  timestamp : String
  username : String
  followers : Option String
  following : Option String
  is_picture_updated : Nat
deriving DecidableEq, Repr

/-- A line of the CSV ledger: the header or a data row. -/
inductive LogLine where
  | header
  | row (e : LogEntry)
deriving DecidableEq, Repr

/-- `log_to_csv` from `main.py`, acting on the ledger file state (`none` =
file absent): the file is opened in append mode and the header is written
exactly when the file did not exist. -/
def log_to_csv (e : LogEntry) (file : Option (List LogLine)) : List LogLine :=
  match file with
  | none => [.header, .row e]
  | some lines => lines ++ [.row e]

/-- The durable state `scrape_and_log` touches: the baseline file
`last_pic_url.txt` (`none` = absent, `some c` = contents `c`), the ledger
`profile_log.csv`, and the avatar files saved under `profile_pics/`. -/
structure RunState where
  baseline : Option String
  log : Option (List LogLine)
  pics : List String
deriving DecidableEq, Repr

/-- Results of the external collaborators for one run.  The Selenium-driven
strategies are driver interactions, so their outcomes are inputs; the pure
text extractions are applied to `pageSource` / `fetchedHtml` by the model
itself, exactly as `scrape_and_log` applies them. -/
structure Env where
  /-- `_build_driver()` succeeded (its failure is caught at line 424). -/
  driverOk : Bool
  /-- First truthy `src` of the `img[alt*='profile picture']` selector poll. -/
  domSelPic : Option String
  /-- `_best_img_from_header`: largest CDN-hosted header image, if any. -/
  domHeaderPic : Option String
  /-- First truthy `content` of the og-image meta tags queried via the DOM. -/
  domMetaPic : Option String
  /-- `content` attribute of `meta[name="description"]` via the DOM
  (`none` = element lookup raised; the code's `or ""` is already applied). -/
  domDesc : Option String
  /-- `driver.page_source or ""`. -/
  pageSource : String
  /-- `_fetch_profile_html` result (`none` = request failed or non-200). -/
  fetchedHtml : Option String
  /-- `_fetch_profile_json` results (already cast to `str`). -/
  jsonPic : Option String
  jsonFollowers : Option String
  jsonFollowing : Option String
  /-- `download_image` succeeds (`False` = it raises). -/
  downloadOk : Bool
deriving Repr

/-- `_get_profile_img_src_dom` from `main.py`: labelled-selector poll, then
largest header image, then DOM meta tags, then the og/JSON regexes over
`driver.page_source` — first truthy value wins. -/
def get_profile_img_src_dom (env : Env) : Option String :=
  pyOr env.domSelPic (pyOr env.domHeaderPic (pyOr env.domMetaPic
    (pyOr (extract_og_image_from_html env.pageSource)
      (extract_profile_pic_from_jsonish env.pageSource))))

/-- The two count regexes of lines 445–448, applied to a meta-description
string (the same patterns `_extract_follow_counts_from_meta` uses). -/
def descCounts (desc : String) : Option String × Option String :=
  ((searchCountBefore "followers".toList desc.toList).map (fun r => (stripCommas r).asString),
   (searchCountBefore "following".toList desc.toList).map (fun r => (stripCommas r).asString))

/-- The extraction pipeline results for one run. -/
structure Extracted where
  pic : Option String
  followers : Option String
  following : Option String
deriving DecidableEq, Repr

/-- Lines 419–491 of `scrape_and_log`: the driver-based strategies (when the
driver started), then the HTTP-fallback strategies on the page markup.
Stops before the JSON-endpoint fallback of lines 493–498. -/
def extractPreJson (env : Env) : Extracted :=
  let pic0 : Option String := if env.driverOk then get_profile_img_src_dom env else none
  let fol0 : Option String :=
    if env.driverOk then
      match env.domDesc with
      | some d => (descCounts d).1
      | none => none
    else none
  let ing0 : Option String :=
    if env.driverOk then
      match env.domDesc with
      | some d => (descCounts d).2
      | none => none
    else none
  let pageHtml0 : Option String := if env.driverOk then some env.pageSource else none
  let pic1 :=
    if env.driverOk && !(isTruthy pic0) then
      pyOr (extract_og_image_from_html env.pageSource)
        (extract_profile_pic_from_jsonish env.pageSource)
    else pic0
  if !(isTruthy pic1 && isTruthy fol0 && isTruthy ing0) then
    let ph : String := if isTruthy pageHtml0 then pageHtml0.getD "" else env.fetchedHtml.getD ""
    let pic2 :=
      if !(isTruthy pic1) then
        pyOr (extract_og_image_from_html ph) (extract_profile_pic_from_jsonish ph)
      else pic1
    if !(isTruthy fol0 && isTruthy ing0) then
      let fc := extract_follow_counts_from_meta ph
      ⟨pic2, pyOr fol0 fc.1, pyOr ing0 fc.2⟩
    else ⟨pic2, fol0, ing0⟩
  else ⟨pic1, fol0, ing0⟩

/-- Lines 419–498 of `scrape_and_log`: the whole extraction pipeline,
including the last-resort JSON endpoint (`pic_url = pic_url or pic2`, etc.). -/
def runExtraction (env : Env) : Extracted :=
  let pre := extractPreJson env
  if !(isTruthy pre.pic && isTruthy pre.followers && isTruthy pre.following) then
    ⟨pyOr pre.pic env.jsonPic, pyOr pre.followers env.jsonFollowers,
      pyOr pre.following env.jsonFollowing⟩
  else pre

/-- The `RuntimeError` message of line 502. -/
def chainExhaustedMsg : String := "Could not locate profile picture after all strategies."

/-- Lines 509–523 of `scrape_and_log`: change detection and conditional
download.  Returns `(is_updated, baseline value written (if any), avatar
files written)`; `.error` models a `ValueError` escaping from `urlparse`.
`download_image`'s success is the explicit input `dlOk` (the `try` covers the
download and the subsequent baseline save; the save's own file write is
modelled as succeeding). -/
def compareAndMaybeDownload (pic_url : Option String) (baseline : Option String)
    (dlOk : Bool) (username tsFile : String) :
    Except String (Nat × Option String × List String) :=
  match pic_url with
  | none => .ok (0, none, [])
  | some u =>
    if u = "" then .ok (0, none, [])
    else
      match normalize_url u with
      | .error e => .error e
      | .ok currentNorm =>
        if baseline.map pyStrip = some currentNorm then .ok (0, none, [])
        else
          if dlOk then .ok (1, some currentNorm, [tsFile ++ "_" ++ username ++ "_profile.jpg"])
          else .ok (0, none, [])

/-- The effect of the conditional `save_last_pic_url` on the baseline slot:
the newly written value, or the old contents when nothing was written. -/
def applyWrite (wrote old : Option String) : Option String :=
  match wrote with
  | some w => some w
  | none => old

/-- Run outcome: the returned entry, or an uncaught exception with its
message. -/
inductive Outcome where
  | ok (entry : LogEntry)
  | err (msg : String)
deriving DecidableEq, Repr

/-- `scrape_and_log` from `main.py`: extraction pipeline, strict-mode raise
when no picture URL was found, change detection/download, then
`log_to_csv`.  Timestamps are the opaque inputs `tsIso` (for `now_iso`) and
`tsFile` (for the `strftime` file-name stamp). -/
def scrape_and_log (env : Env) (username tsIso tsFile : String) (strict : Bool)
    (st : RunState) : Outcome × RunState :=
  let ex := runExtraction env
  if !(isTruthy ex.pic) && strict then (.err chainExhaustedMsg, st)
  else
    match compareAndMaybeDownload ex.pic st.baseline env.downloadOk username tsFile with
    | .error e => (.err e, st)
    | .ok (upd, wrote, newPics) =>
      let e : LogEntry := ⟨tsIso, username, ex.followers, ex.following, upd⟩
      (.ok e, ⟨applyWrite wrote st.baseline, some (log_to_csv e st.log), st.pics ++ newPics⟩)

/-- The `__main__` guard of `main.py`: the process exit is non-zero exactly
when `scrape_and_log` raised and `STRICT=1`; otherwise the exception is
swallowed with a warning. -/
def mainEntry (env : Env) (username tsIso tsFile : String) (strict : Bool)
    (st : RunState) : Bool × RunState :=
  match scrape_and_log env username tsIso tsFile strict st with
  | (.ok _, st2) => (false, st2)
  | (.err _, st2) => (strict, st2)

/-- `n` consecutive invocations threading the durable state; run `i` uses
environment `envs i` and timestamp `ts i`. -/
def iterateRuns (envs : Nat → Env) (username : String) (ts : Nat → String)
    (strict : Bool) : Nat → RunState → RunState
  | 0, st => st
  | n + 1, st =>
    (scrape_and_log (envs n) username (ts n) (ts n) strict
      (iterateRuns envs username ts strict n st)).2

/-! ## Behavioral lemmas about `compareAndMaybeDownload` and `scrape_and_log` -/

theorem isTruthy_false_elim {o : Option String} (h : isTruthy o = false) :
    o = none ∨ o = some "" := by
  cases o with
  | none => exact Or.inl rfl
  | some s =>
    right
    simp [isTruthy] at h
    rw [h]

theorem compare_not_truthy {pic : Option String} {b : Option String} {d : Bool}
    {un t : String} (h : isTruthy pic = false) :
    compareAndMaybeDownload pic b d un t = .ok (0, none, []) := by
  rcases isTruthy_false_elim h with h | h <;> subst h <;> rfl

theorem compare_equal {u n : String} {b : Option String} {d : Bool} {un t : String}
    (hu : u ≠ "") (hn : normalize_url u = .ok n) (hb : b.map pyStrip = some n) :
    compareAndMaybeDownload (some u) b d un t = .ok (0, none, []) := by
  simp only [compareAndMaybeDownload, if_neg hu, hn, if_pos hb]

theorem compare_changed {u n : String} {b : Option String} {d : Bool} {un t : String}
    (hu : u ≠ "") (hn : normalize_url u = .ok n) (hb : ¬ b.map pyStrip = some n) :
    compareAndMaybeDownload (some u) b d un t =
      if d then .ok (1, some n, [t ++ "_" ++ un ++ "_profile.jpg"]) else .ok (0, none, []) := by
  simp only [compareAndMaybeDownload, if_neg hu, hn, if_neg hb]

theorem compare_wrote {pic b : Option String} {d : Bool} {un t : String}
    {upd : Nat} {w : String} {ps : List String}
    (h : compareAndMaybeDownload pic b d un t = .ok (upd, some w, ps)) :
    ∃ u, pic = some u ∧ u ≠ "" ∧ normalize_url u = .ok w ∧
      b.map pyStrip ≠ some w ∧ d = true ∧ upd = 1 := by
  cases pic with
  | none => simp [compareAndMaybeDownload] at h
  | some u =>
    simp only [compareAndMaybeDownload] at h
    by_cases hu : u = ""
    · rw [if_pos hu] at h
      simp at h
    · rw [if_neg hu] at h
      cases hn : normalize_url u with
      | error e =>
        simp only [hn] at h
        simp at h
      | ok nn =>
        simp only [hn] at h
        by_cases hb : b.map pyStrip = some nn
        · rw [if_pos hb] at h
          simp at h
        · rw [if_neg hb] at h
          cases d with
          | false => simp at h
          | true =>
            simp at h
            obtain ⟨h1, h2, -⟩ := h
            subst h2
            exact ⟨u, rfl, hu, hn, hb, rfl, h1.symm⟩

theorem compare_no_write_same {pic b : Option String} {d : Bool} {un t : String}
    {upd : Nat} {ps : List String}
    (h : compareAndMaybeDownload pic b d un t = .ok (upd, none, ps)) : upd = 0 ∧ ps = [] := by
  cases pic with
  | none =>
    simp [compareAndMaybeDownload] at h
    exact ⟨h.1.symm, h.2⟩
  | some u =>
    simp only [compareAndMaybeDownload] at h
    by_cases hu : u = ""
    · rw [if_pos hu] at h
      simp at h
      exact ⟨h.1.symm, h.2⟩
    · rw [if_neg hu] at h
      cases hn : normalize_url u with
      | error e =>
        simp only [hn] at h
        simp at h
      | ok nn =>
        simp only [hn] at h
        by_cases hb : b.map pyStrip = some nn
        · rw [if_pos hb] at h
          simp at h
          exact ⟨h.1.symm, h.2⟩
        · rw [if_neg hb] at h
          cases d with
          | false =>
            simp at h
            exact ⟨h.1.symm, h.2⟩
          | true => simp at h

theorem scrape_strict_miss {env : Env} {un t1 t2 : String} {st : RunState}
    (h : isTruthy (runExtraction env).pic = false) :
    scrape_and_log env un t1 t2 true st = (.err chainExhaustedMsg, st) := by
  simp only [scrape_and_log, h]
  simp

theorem scrape_of_compare_ok {env : Env} {un t1 t2 : String} {strict : Bool} {st : RunState}
    {upd : Nat} {wrote : Option String} {ps : List String}
    (hc : (!(isTruthy (runExtraction env).pic) && strict) = false)
    (h : compareAndMaybeDownload (runExtraction env).pic st.baseline env.downloadOk un t2 =
      .ok (upd, wrote, ps)) :
    scrape_and_log env un t1 t2 strict st =
      (.ok ⟨t1, un, (runExtraction env).followers, (runExtraction env).following, upd⟩,
       ⟨applyWrite wrote st.baseline,
        some (log_to_csv ⟨t1, un, (runExtraction env).followers,
          (runExtraction env).following, upd⟩ st.log),
        st.pics ++ ps⟩) := by
  simp only [scrape_and_log, hc]
  simp only [Bool.false_eq_true, if_false, h]

theorem scrape_lenient_miss {env : Env} {un t1 t2 : String} {st : RunState}
    (h : isTruthy (runExtraction env).pic = false) :
    scrape_and_log env un t1 t2 false st =
      (.ok ⟨t1, un, (runExtraction env).followers, (runExtraction env).following, 0⟩,
       ⟨st.baseline,
        some (log_to_csv ⟨t1, un, (runExtraction env).followers,
          (runExtraction env).following, 0⟩ st.log),
        st.pics⟩) := by
  have hcmp := @compare_not_truthy (runExtraction env).pic st.baseline env.downloadOk un t2 h
  have hs := @scrape_of_compare_ok env un t1 t2 false st 0 none [] (Bool.and_false _) hcmp
  simpa using hs

theorem scrape_ok_log {env : Env} {un t1 t2 : String} {strict : Bool} {st : RunState}
    {e : LogEntry} (h : (scrape_and_log env un t1 t2 strict st).1 = .ok e) :
    (scrape_and_log env un t1 t2 strict st).2.log = some (log_to_csv e st.log) := by
  simp only [scrape_and_log] at h ⊢
  cases hcond : (!(isTruthy (runExtraction env).pic) && strict) with
  | true =>
    simp only [hcond] at h
    simp at h
  | false =>
    simp only [hcond, Bool.false_eq_true, if_false] at h ⊢
    cases hcmp : compareAndMaybeDownload (runExtraction env).pic st.baseline
        env.downloadOk un t2 with
    | error e2 =>
      simp only [hcmp] at h
      simp at h
    | ok triple =>
      obtain ⟨upd, wrote, ps⟩ := triple
      simp only [hcmp] at h ⊢
      simp at h
      rw [← h]

theorem scrape_cases (env : Env) (un t1 t2 : String) (strict : Bool) (st : RunState) :
    (scrape_and_log env un t1 t2 strict st = (.err chainExhaustedMsg, st) ∧
      isTruthy (runExtraction env).pic = false ∧ strict = true) ∨
    (∃ e2, scrape_and_log env un t1 t2 strict st = (.err e2, st) ∧
      compareAndMaybeDownload (runExtraction env).pic st.baseline env.downloadOk un t2 =
        .error e2) ∨
    (∃ upd wrote ps,
      compareAndMaybeDownload (runExtraction env).pic st.baseline env.downloadOk un t2 =
        .ok (upd, wrote, ps) ∧
      scrape_and_log env un t1 t2 strict st =
        (.ok ⟨t1, un, (runExtraction env).followers, (runExtraction env).following, upd⟩,
         ⟨applyWrite wrote st.baseline,
          some (log_to_csv ⟨t1, un, (runExtraction env).followers,
            (runExtraction env).following, upd⟩ st.log),
          st.pics ++ ps⟩)) := by
  cases hcond : (!(isTruthy (runExtraction env).pic) && strict) with
  | true =>
    left
    have h1 : strict = true := by
      cases strict with
      | false => simp at hcond
      | true => rfl
    have h2 : isTruthy (runExtraction env).pic = false := by
      cases hp : isTruthy (runExtraction env).pic with
      | false => rfl
      | true => rw [hp] at hcond; simp at hcond
    subst h1
    exact ⟨scrape_strict_miss h2, h2, rfl⟩
  | false =>
    right
    cases hcmp : compareAndMaybeDownload (runExtraction env).pic st.baseline
        env.downloadOk un t2 with
    | error e2 =>
      left
      refine ⟨e2, ?_, rfl⟩
      simp only [scrape_and_log, hcond, Bool.false_eq_true, if_false, hcmp]
    | ok triple =>
      right
      obtain ⟨upd, wrote, ps⟩ := triple
      exact ⟨upd, wrote, ps, rfl, scrape_of_compare_ok hcond hcmp⟩

/-! ## The claims -/

/-- C8: the fingerprint normalizer is idempotent: whenever `normalize_url`
returns a canonical URL, running `normalize_url` on that result returns it
unchanged (`normalize(normalize(u)) == normalize(u)` for every `u` on which
`normalize` is defined; on empty input both sides are the empty string, also
a fixed point). -/
theorem c8_normalize_url_idempotent (u v : String) (h : normalize_url u = .ok v) :
    normalize_url v = .ok v :=
  normalize_url_fix h

theorem c8_witness :
    normalize_url "https://cdn.test/v/pic.jpg?cb=12345#frag" = .ok "https://cdn.test/v/pic.jpg" ∧
    normalize_url "https://cdn.test/v/pic.jpg" = .ok "https://cdn.test/v/pic.jpg" :=
  ⟨rfl, c8_normalize_url_idempotent "https://cdn.test/v/pic.jpg?cb=12345#frag"
    "https://cdn.test/v/pic.jpg" rfl⟩

/-- C6 counterexample: on a profile description advertising `1.2k followers`,
the program's count extraction finds no followers value at all — the `k`
suffix makes `([\d,.]+)\s+followers` fail — rather than the integer 1200 the
claim requires; likewise `3.4m` does not yield 3400000. -/
theorem c6_counterexample :
    extract_follow_counts_from_meta
      "<meta name=\"description\" content=\"1.2k followers, 3.4m following\">" =
      (none, none) ∧
    (extract_follow_counts_from_meta
      "<meta name=\"description\" content=\"1.2k followers, 3.4m following\">").1 ≠
      some "1200" :=
  ⟨rfl, by decide⟩

/-- C6 (amended): the count extraction matches `([\d,.]+)\s+followers` (and
`following`) in the meta description and strips commas, returning the digits
as a string: `"1,234 followers"` yields `"1234"`; a `k`/`m`/`b`-suffixed
count such as `"1.2k"` or `"3.4m"` does not match at all (no value, not a
scaled integer); `"banana"` and a page without a description yield no value,
as an ordinary absent result rather than an exception. -/
theorem c6_count_extraction_contract :
    extract_follow_counts_from_meta
      "<meta name=\"description\" content=\"1,234 followers, 56 following\">" =
      (some "1234", some "56") ∧
    extract_follow_counts_from_meta
      "<meta name=\"description\" content=\"1.2k followers, 3.4m following\">" =
      (none, none) ∧
    extract_follow_counts_from_meta
      "<meta name=\"description\" content=\"banana followers\">" = (none, none) ∧
    extract_follow_counts_from_meta "no description tag here" = (none, none) :=
  ⟨rfl, rfl, rfl, rfl⟩

/-- An environment in which every avatar and stats strategy fails: no
browser, empty page markup, failed HTML fetch, empty JSON results. -/
def envAllMiss : Env :=
  ⟨false, none, none, none, none, "", none, none, none, none, true⟩

/-- C3 counterexample: in strict mode with every avatar strategy missing,
`scrape_and_log` raises `RuntimeError` at line 504 *before* reaching
`log_to_csv`: the run signals failure with the ledger still absent — no
LedgerRecord with the partial results is appended. -/
theorem c3_counterexample :
    scrape_and_log envAllMiss "user" "t1" "t2" true ⟨none, none, []⟩ =
      (.err chainExhaustedMsg, ⟨none, none, []⟩) ∧
    (scrape_and_log envAllMiss "user" "t1" "t2" true ⟨none, none, []⟩).2.log = none :=
  ⟨rfl, rfl⟩

/-- C3 (amended): in strict mode, when every avatar strategy fails to produce
a picture URL, the run raises `RuntimeError` immediately and appends no
LedgerRecord: the durable state (ledger, baseline, avatar files) is exactly
as before the run.  (Only lenient mode logs the partial record.) -/
theorem c3_strict_miss_raises_without_record (env : Env) (un t1 t2 : String)
    (st : RunState) (h : isTruthy (runExtraction env).pic = false) :
    scrape_and_log env un t1 t2 true st = (.err chainExhaustedMsg, st) :=
  scrape_strict_miss h

theorem c3_witness :
    scrape_and_log envAllMiss "user" "t1" "t2" true ⟨none, none, []⟩ =
      (.err chainExhaustedMsg, ⟨none, none, []⟩) :=
  c3_strict_miss_raises_without_record envAllMiss "user" "t1" "t2" ⟨none, none, []⟩ rfl

/-- An environment in which the driver starts but every driver/HTML strategy
misses, while the JSON endpoint returns a picture URL and counts. -/
def envJsonOnly : Env :=
  ⟨true, none, none, none, none, "", none,
   some "https://json.example/hd.jpg", some "5", some "6", true⟩

/-- C5 counterexample: with every tier-1–4 strategy returning nothing
(`extractPreJson` finds no picture), the JSON endpoint's URL *is* used as the
sole source of the fingerprint: it becomes the extracted picture URL and is
persisted as the new baseline, contradicting "never used as the sole source
of the fingerprint that drives change detection". -/
theorem c5_counterexample :
    extractPreJson envJsonOnly = ⟨none, none, none⟩ ∧
    (runExtraction envJsonOnly).pic = some "https://json.example/hd.jpg" ∧
    (scrape_and_log envJsonOnly "u" "t1" "t2" false ⟨none, none, []⟩).2.baseline =
      some "https://json.example/hd.jpg" :=
  ⟨rfl, rfl, rfl⟩

/-- C5 (amended): the JSON endpoint (tier 5) is a last-resort *fallback*, not
an upgrade: when tiers 1–4 produced a truthy URL it is kept unchanged (the
endpoint result never replaces it, so it never upgrades resolution either),
and when tiers 1–4 all miss, the endpoint's URL — if any — is used as the
sole source of the fingerprint. -/
theorem c5_json_endpoint_is_fallback (env : Env) :
    (isTruthy (extractPreJson env).pic = true →
      (runExtraction env).pic = (extractPreJson env).pic) ∧
    (isTruthy (extractPreJson env).pic = false →
      (runExtraction env).pic = pyOr (extractPreJson env).pic env.jsonPic) := by
  constructor
  · intro h
    unfold runExtraction
    cases hc : (!(isTruthy (extractPreJson env).pic && isTruthy (extractPreJson env).followers &&
        isTruthy (extractPreJson env).following)) with
    | true =>
      simp only [hc, if_true]
      simp [pyOr, h]
    | false =>
      simp only [hc]
      simp
  · intro h
    unfold runExtraction
    have hc : (!(isTruthy (extractPreJson env).pic && isTruthy (extractPreJson env).followers &&
        isTruthy (extractPreJson env).following)) = true := by
      rw [h]
      rfl
    simp only [hc, if_true]

theorem c5_witness :
    (runExtraction envJsonOnly).pic = pyOr (extractPreJson envJsonOnly).pic envJsonOnly.jsonPic :=
  (c5_json_endpoint_is_fallback envJsonOnly).2 rfl

/-- A page that is a login wall: a credential form, no profile data at all. -/
def loginWallHtml : String :=
  "<html><body><form method=\"post\"><input name=\"username\"><input name=\"password\"><button>Log in</button></form></body></html>"

def envLoginWall : Env :=
  ⟨false, none, none, none, none, "", some loginWallHtml, none, none, none, true⟩

def envEmptyPage : Env :=
  ⟨false, none, none, none, none, "", none, none, none, none, true⟩

def envLoginWallJson : Env :=
  ⟨false, none, none, none, none, "", some loginWallHtml,
   some "https://json.example/hd.jpg", some "5", some "6", true⟩

/-- C7 counterexample: a page matching a login-form signature raises no
distinct AuthenticationRequired condition: the strict-mode run on the login
wall is byte-for-byte identical to the run on a page with nothing at all —
the same generic ChainExhausted `RuntimeError` — and further strategies *are*
attempted after the wall is served (the JSON endpoint's URL is still picked
up). -/
theorem c7_counterexample :
    scrape_and_log envLoginWall "u" "t1" "t2" true ⟨none, none, []⟩ =
      scrape_and_log envEmptyPage "u" "t1" "t2" true ⟨none, none, []⟩ ∧
    (scrape_and_log envLoginWall "u" "t1" "t2" true ⟨none, none, []⟩).1 =
      .err chainExhaustedMsg ∧
    (runExtraction envLoginWallJson).pic = some "https://json.example/hd.jpg" :=
  ⟨rfl, rfl, rfl⟩

/-- C7 (amended): the code contains no authentication-wall detection: the
outcome is a function of the extraction results alone, so a
credential-required page on which every strategy misses is handled exactly
like ChainExhausted — strict mode raises the same generic RuntimeError, and
lenient mode still appends a record with empty picture state; stats and
avatar strategies are all still attempted. -/
theorem c7_no_distinct_auth_condition (env : Env) (un t1 t2 : String) (st : RunState)
    (h : isTruthy (runExtraction env).pic = false) :
    (scrape_and_log env un t1 t2 true st).1 = .err chainExhaustedMsg ∧
    ∃ e, (scrape_and_log env un t1 t2 false st).1 = .ok e ∧
      e.is_picture_updated = 0 ∧
      (scrape_and_log env un t1 t2 false st).2.log = some (log_to_csv e st.log) := by
  refine ⟨by rw [scrape_strict_miss h], ?_⟩
  refine ⟨⟨t1, un, (runExtraction env).followers, (runExtraction env).following, 0⟩, ?_, rfl, ?_⟩
  · rw [scrape_lenient_miss h]
  · rw [scrape_lenient_miss h]

theorem c7_witness :
    (scrape_and_log envLoginWall "u" "t1" "t2" true ⟨none, none, []⟩).1 =
      .err chainExhaustedMsg :=
  (c7_no_distinct_auth_condition envLoginWall "u" "t1" "t2" ⟨none, none, []⟩ rfl).1

theorem compare_ok_of_norm {u n : String} {b : Option String} {d : Bool} {un t : String}
    (hu : u ≠ "") (hn : normalize_url u = .ok n) :
    ∃ upd wrote ps, compareAndMaybeDownload (some u) b d un t = .ok (upd, wrote, ps) := by
  by_cases hb : b.map pyStrip = some n
  · exact ⟨0, none, [], compare_equal hu hn hb⟩
  · rw [compare_changed hu hn hb]
    cases d with
    | false => exact ⟨0, none, [], rfl⟩
    | true => exact ⟨1, some n, [t ++ "_" ++ un ++ "_profile.jpg"], rfl⟩

/-- A run whose browser cannot start but whose HTTP fallback serves a profile
page with an og-image (with a cache-busting query) and a description. -/
def envBrowserDown : Env :=
  ⟨false, none, none, none, none, "",
   some "<meta property=\"og:image\" content=\"https://cdn.test/v/p.jpg?cb=1\"><meta name=\"description\" content=\"12 followers, 34 following\">",
   none, none, none, true⟩

/-- C4 counterexample: when `_build_driver()` fails (BrowserUnavailable), the
exception is caught at line 426 and the run continues with the HTTP
fallbacks — even in strict mode a LedgerRecord *is* written, the avatar is
downloaded, and the process exits zero, contradicting "fatal, no record is
written, immediate non-zero exit regardless of mode". -/
theorem c4_counterexample :
    (scrape_and_log envBrowserDown "u" "t1" "t2" true ⟨none, none, []⟩).1 =
      .ok ⟨"t1", "u", some "12", some "34", 1⟩ ∧
    (scrape_and_log envBrowserDown "u" "t1" "t2" true ⟨none, none, []⟩).2.log =
      some [.header, .row ⟨"t1", "u", some "12", some "34", 1⟩] ∧
    (mainEntry envBrowserDown "u" "t1" "t2" true ⟨none, none, []⟩).1 = false :=
  ⟨rfl, rfl, rfl⟩

/-- C4 (amended): failure to start the browser is caught and is *not* fatal:
the run continues with the HTTP fallbacks, and whenever they produce a
picture URL (whose normalization succeeds), a LedgerRecord is still appended
and the run returns normally, in either mode. -/
theorem c4_browser_unavailable_nonfatal (env : Env) (un t1 t2 : String) (strict : Bool)
    (st : RunState) (v n : String)
    (hdrv : env.driverOk = false)
    (hpic : (runExtraction env).pic = some v) (hv : v ≠ "")
    (hn : normalize_url v = .ok n) :
    ∃ e, (scrape_and_log env un t1 t2 strict st).1 = .ok e ∧
      (scrape_and_log env un t1 t2 strict st).2.log = some (log_to_csv e st.log) := by
  have ht : isTruthy (runExtraction env).pic = true := by
    rw [hpic]
    simp [isTruthy, hv]
  have hc : (!(isTruthy (runExtraction env).pic) && strict) = false := by
    rw [ht]
    simp
  obtain ⟨upd, wrote, ps, hcmp⟩ :=
    @compare_ok_of_norm v n st.baseline env.downloadOk un t2 hv hn
  have hcmp2 : compareAndMaybeDownload (runExtraction env).pic st.baseline
      env.downloadOk un t2 = .ok (upd, wrote, ps) := by
    rw [hpic]
    exact hcmp
  have hsc := @scrape_of_compare_ok env un t1 t2 strict st upd wrote ps hc hcmp2
  exact ⟨_, by rw [hsc], by rw [hsc]⟩

theorem c4_witness :
    ∃ e, (scrape_and_log envBrowserDown "u" "t1" "t2" true ⟨none, none, []⟩).1 = .ok e ∧
      (scrape_and_log envBrowserDown "u" "t1" "t2" true ⟨none, none, []⟩).2.log =
        some (log_to_csv e none) :=
  c4_browser_unavailable_nonfatal envBrowserDown "u" "t1" "t2" true ⟨none, none, []⟩
    "https://cdn.test/v/p.jpg?cb=1" "https://cdn.test/v/p.jpg" rfl rfl (by decide) rfl

theorem scrape_state_baseline (env : Env) (un t1 t2 : String) (strict : Bool) (st : RunState) :
    (scrape_and_log env un t1 t2 strict st).2.baseline = st.baseline ∨
    (∃ upd ps w,
      compareAndMaybeDownload (runExtraction env).pic st.baseline env.downloadOk un t2 =
        .ok (upd, some w, ps) ∧
      (scrape_and_log env un t1 t2 strict st).2.baseline = some w) := by
  rcases scrape_cases env un t1 t2 strict st with ⟨heq, -, -⟩ | ⟨e2, heq, -⟩ |
    ⟨upd, wrote, ps, hcmp, heq⟩
  · left
    rw [heq]
  · left
    rw [heq]
  · cases wrote with
    | none =>
      left
      rw [heq]
      rfl
    | some w =>
      right
      refine ⟨upd, ps, w, hcmp, ?_⟩
      rw [heq]
      rfl

/-- C1: the persisted baseline (`last_pic_url.txt`) is written exactly when a
change is confirmed and the avatar download succeeds: if no picture URL was
extracted (or only an empty one), or the normalized URL equals the stored
(stripped) baseline, or the download raises, the baseline file is unchanged;
when it does change it holds `normalize_url` of an actually-extracted
non-empty URL, never an empty or invalid value, and the logged row says
`is_picture_updated = 1` exactly then. -/
theorem c1_baseline_written_iff_change_and_download (env : Env) (un t1 t2 : String)
    (strict : Bool) (st : RunState) :
    ((runExtraction env).pic = none ∨ (runExtraction env).pic = some "" →
      (scrape_and_log env un t1 t2 strict st).2.baseline = st.baseline) ∧
    (∀ u n, (runExtraction env).pic = some u → u ≠ "" → normalize_url u = .ok n →
      st.baseline.map pyStrip = some n →
      (scrape_and_log env un t1 t2 strict st).2.baseline = st.baseline) ∧
    (env.downloadOk = false →
      (scrape_and_log env un t1 t2 strict st).2.baseline = st.baseline) ∧
    (∀ u n, (runExtraction env).pic = some u → u ≠ "" → normalize_url u = .ok n →
      st.baseline.map pyStrip ≠ some n → env.downloadOk = true →
      (scrape_and_log env un t1 t2 strict st).2.baseline = some n ∧
      (scrape_and_log env un t1 t2 strict st).1 =
        .ok ⟨t1, un, (runExtraction env).followers, (runExtraction env).following, 1⟩) ∧
    ((scrape_and_log env un t1 t2 strict st).2.baseline ≠ st.baseline →
      ∃ u n, (runExtraction env).pic = some u ∧ u ≠ "" ∧ normalize_url u = .ok n ∧
        st.baseline.map pyStrip ≠ some n ∧ env.downloadOk = true ∧
        (scrape_and_log env un t1 t2 strict st).2.baseline = some n) := by
  refine ⟨?_, ?_, ?_, ?_, ?_⟩
  · intro hfalsy
    have ht : isTruthy (runExtraction env).pic = false := by
      rcases hfalsy with h | h <;> rw [h] <;> rfl
    rcases scrape_state_baseline env un t1 t2 strict st with he | ⟨upd, ps, w, hcmp, -⟩
    · exact he
    · rw [compare_not_truthy ht] at hcmp
      simp at hcmp
  · intro u n hpi hu hn hb
    rcases scrape_state_baseline env un t1 t2 strict st with he | ⟨upd, ps, w, hcmp, -⟩
    · exact he
    · rw [hpi, compare_equal hu hn hb] at hcmp
      simp at hcmp
  · intro hd
    rcases scrape_state_baseline env un t1 t2 strict st with he | ⟨upd, ps, w, hcmp, -⟩
    · exact he
    · obtain ⟨u2, -, -, -, -, hd2, -⟩ := compare_wrote hcmp
      rw [hd] at hd2
      simp at hd2
  · intro u n hpi hu hn hb hd
    have ht : isTruthy (runExtraction env).pic = true := by
      rw [hpi]
      simp [isTruthy, hu]
    have hc : (!(isTruthy (runExtraction env).pic) && strict) = false := by
      rw [ht]
      simp
    have hcmp : compareAndMaybeDownload (runExtraction env).pic st.baseline
        env.downloadOk un t2 = .ok (1, some n, [t2 ++ "_" ++ un ++ "_profile.jpg"]) := by
      rw [hpi, compare_changed hu hn hb, hd]
      simp
    have hsc := @scrape_of_compare_ok env un t1 t2 strict st 1 (some n)
      [t2 ++ "_" ++ un ++ "_profile.jpg"] hc hcmp
    refine ⟨?_, ?_⟩ <;> rw [hsc] <;> rfl
  · intro hne
    rcases scrape_state_baseline env un t1 t2 strict st with he | ⟨upd, ps, w, hcmp, hbl⟩
    · exact absurd he hne
    · obtain ⟨u, hpu, hu, hn, hb, hd, -⟩ := compare_wrote hcmp
      exact ⟨u, w, hpu, hu, hn, hb, hd, hbl⟩

theorem c1_witness :
    (scrape_and_log (⟨false, none, none, none, none, "", some "<meta property=\"og:image\" content=\"https://cdn.test/v/p.jpg?cb=1\"><meta name=\"description\" content=\"12 followers, 34 following\">", none, none, none, false⟩ : Env)
      "u" "t1" "t2" false ⟨none, none, []⟩).2.baseline = (none : Option String) :=
  (c1_baseline_written_iff_change_and_download
    ⟨false, none, none, none, none, "", some "<meta property=\"og:image\" content=\"https://cdn.test/v/p.jpg?cb=1\"><meta name=\"description\" content=\"12 followers, 34 following\">", none, none, none, false⟩
    "u" "t1" "t2" false ⟨none, none, []⟩).2.2.1 rfl

/-- The spec's "differs from `U` only in query string or fragment": both
parse successfully and agree on scheme, netloc and path (the components
`normalize_url` keeps). -/
def differsOnlyInQueryFragment (bigU bigV : String) : Prop :=
  ∃ sU sV, pyUrlsplit bigU.toList = .ok sU ∧ pyUrlsplit bigV.toList = .ok sV ∧
    sU.scheme = sV.scheme ∧ sU.netloc = sV.netloc ∧ sU.path = sV.path

theorem normalize_eq_of_differs {bigU bigV : String} (hU : bigU ≠ "") (hV : bigV ≠ "")
    (h : differsOnlyInQueryFragment bigU bigV) : normalize_url bigV = normalize_url bigU := by
  obtain ⟨sU, sV, hpU, hpV, h1, h2, h3⟩ := h
  unfold normalize_url
  rw [if_neg hU, if_neg hV]
  simp only [hpU, hpV]
  rw [← h1, ← h2, ← h3]

/-- C2: no cache-busting false positive.  If the stored baseline (stripped on
load) equals `normalize(U)` and the run extracts a raw URL `V` that differs
from `U` only in query string or fragment (e.g. `U ++ "?cb=12345"`), then the
appended record carries `is_picture_updated = 0`, no avatar file is written,
and the baseline file is unchanged; the ledger gains exactly that one row. -/
theorem c2_cache_busting_stable (env : Env) (un t1 t2 : String) (strict : Bool)
    (st : RunState) (bigU bigV n : String)
    (hU : bigU ≠ "") (hV : bigV ≠ "")
    (hpic : (runExtraction env).pic = some bigV)
    (hdiff : differsOnlyInQueryFragment bigU bigV)
    (hnU : normalize_url bigU = .ok n)
    (hb : st.baseline.map pyStrip = some n) :
    scrape_and_log env un t1 t2 strict st =
      (.ok ⟨t1, un, (runExtraction env).followers, (runExtraction env).following, 0⟩,
       ⟨st.baseline,
        some (log_to_csv ⟨t1, un, (runExtraction env).followers,
          (runExtraction env).following, 0⟩ st.log),
        st.pics⟩) := by
  have hnV : normalize_url bigV = .ok n := by
    rw [normalize_eq_of_differs hU hV hdiff]
    exact hnU
  have ht : isTruthy (runExtraction env).pic = true := by
    rw [hpic]
    simp [isTruthy, hV]
  have hc : (!(isTruthy (runExtraction env).pic) && strict) = false := by
    rw [ht]
    simp
  have hcmp : compareAndMaybeDownload (runExtraction env).pic st.baseline
      env.downloadOk un t2 = .ok (0, none, []) := by
    rw [hpic]
    exact compare_equal hV hnV hb
  have hsc := @scrape_of_compare_ok env un t1 t2 strict st 0 none [] hc hcmp
  simpa using hsc

/-- The run of C2's scenario: the page serves the same avatar under a
cache-busting query, and the baseline already holds the normalized URL. -/
def envCacheBust : Env :=
  ⟨false, none, none, none, none, "",
   some "<meta property=\"og:image\" content=\"https://cdn.test/v/p.jpg?cb=12345\"><meta name=\"description\" content=\"12 followers, 34 following\">",
   none, none, none, true⟩

theorem c2_witness :
    scrape_and_log envCacheBust "u" "t1" "t2" false
      ⟨some "https://cdn.test/v/p.jpg", none, []⟩ =
      (.ok ⟨"t1", "u", some "12", some "34", 0⟩,
       ⟨some "https://cdn.test/v/p.jpg",
        some [.header, .row ⟨"t1", "u", some "12", some "34", 0⟩], []⟩) := by
  have h := c2_cache_busting_stable envCacheBust "u" "t1" "t2" false
    ⟨some "https://cdn.test/v/p.jpg", none, []⟩
    "https://cdn.test/v/p.jpg" "https://cdn.test/v/p.jpg?cb=12345" "https://cdn.test/v/p.jpg"
    (by decide) (by decide) rfl
    ⟨⟨"https".toList, "cdn.test".toList, "/v/p.jpg".toList, [], []⟩,
     ⟨"https".toList, "cdn.test".toList, "/v/p.jpg".toList, "cb=12345".toList, []⟩,
     rfl, rfl, rfl, rfl, rfl⟩
    rfl rfl
  exact h

/-- C10 (implicit): every value the run writes to the baseline file is
`normalize_url(pic_url)` of the extracted URL — never the raw URL — so the
stored baseline is itself a fixed point of the normalizer and is directly
comparable with the normalized fingerprint of a later run. -/
theorem c10_baseline_stores_normalized (env : Env) (un t1 t2 : String) (strict : Bool)
    (st : RunState)
    (h : (scrape_and_log env un t1 t2 strict st).2.baseline ≠ st.baseline) :
    ∃ u w, (runExtraction env).pic = some u ∧ normalize_url u = .ok w ∧
      (scrape_and_log env un t1 t2 strict st).2.baseline = some w ∧
      normalize_url w = .ok w := by
  rcases scrape_state_baseline env un t1 t2 strict st with he | ⟨upd, ps, w, hcmp, hbl⟩
  · exact absurd he h
  · obtain ⟨u, hpu, -, hn, -, -, -⟩ := compare_wrote hcmp
    exact ⟨u, w, hpu, hn, hbl, normalize_url_fix hn⟩

theorem c10_witness :
    ∃ u w, (runExtraction envBrowserDown).pic = some u ∧ normalize_url u = .ok w ∧
      (scrape_and_log envBrowserDown "u" "t1" "t2" false ⟨none, none, []⟩).2.baseline =
        some w ∧
      normalize_url w = .ok w :=
  c10_baseline_stores_normalized envBrowserDown "u" "t1" "t2" false ⟨none, none, []⟩
    (by decide)

/-- The ledger's lines as a list (`[]` when the file is absent). -/
def logLines (st : RunState) : List LogLine :=
  match st.log with
  | none => []
  | some l => l

/-- C9: the ledger is append-only with the header written exactly once at
file creation.  Starting from no log file, after `n` runs that all return
normally the ledger holds exactly one header row — the first line — followed
by exactly `n` data rows and nothing else (`entries.map LogLine.row` admits
no further header line), and every run only appends: the ledger contents
before each run are a prefix of the contents after it — no prior row is
rewritten or deleted. -/
theorem c9_ledger_header_once_append_only (envs : Nat → Env) (un : String)
    (ts : Nat → String) (strict : Bool) (b0 : Option String) (p0 : List String) :
    ∀ n : Nat,
      (∀ i, i < n →
        ∃ e, (scrape_and_log (envs i) un (ts i) (ts i) strict
          (iterateRuns envs un ts strict i ⟨b0, none, p0⟩)).1 = .ok e) →
      (∃ entries : List LogEntry,
        (iterateRuns envs un ts strict n ⟨b0, none, p0⟩).log =
          (if n = 0 then none
            else some (LogLine.header :: entries.map LogLine.row)) ∧
        entries.length = n) ∧
      (∀ k, k < n → ∃ tail,
        logLines (iterateRuns envs un ts strict (k + 1) ⟨b0, none, p0⟩) =
          logLines (iterateRuns envs un ts strict k ⟨b0, none, p0⟩) ++ tail) := by
  intro n
  induction n with
  | zero =>
    intro _
    exact ⟨⟨[], rfl, rfl⟩, fun k hk => absurd hk (by omega)⟩
  | succ m ih =>
    intro hok
    obtain ⟨hshape, happend⟩ := ih fun i hi => hok i (by omega)
    obtain ⟨e, he⟩ := hok m (by omega)
    have hlog := scrape_ok_log he
    have hstep : (iterateRuns envs un ts strict (m + 1) ⟨b0, none, p0⟩).log =
        some (log_to_csv e (iterateRuns envs un ts strict m ⟨b0, none, p0⟩).log) := hlog
    obtain ⟨entries, hrows, hlen⟩ := hshape
    constructor
    · cases hm : m with
      | zero =>
        subst hm
        rw [if_pos rfl] at hrows
        refine ⟨[e], ?_, rfl⟩
        rw [if_neg (by omega), hstep, hrows]
        rfl
      | succ m2 =>
        subst hm
        rw [if_neg (by omega)] at hrows
        refine ⟨entries ++ [e], ?_, by simp [hlen]⟩
        rw [if_neg (by omega), hstep, hrows]
        simp [log_to_csv]
    · intro k hk
      by_cases hkm : k < m
      · exact happend k hkm
      · have hkeq : k = m := by omega
        subst hkeq
        unfold logLines
        rw [hstep]
        cases hprev : (iterateRuns envs un ts strict k ⟨b0, none, p0⟩).log with
        | none => exact ⟨[.header, .row e], rfl⟩
        | some l =>
          refine ⟨[.row e], ?_⟩
          simp [log_to_csv]

theorem c9_witness :
    (∃ entries : List LogEntry,
      (iterateRuns (fun _ => envAllMiss) "user" (fun _ => "t") false 2
        ⟨none, none, []⟩).log =
      (if 2 = 0 then none
        else some (LogLine.header :: entries.map LogLine.row)) ∧
      entries.length = 2) ∧
    (∀ k, k < 2 → ∃ tail,
      logLines (iterateRuns (fun _ => envAllMiss) "user" (fun _ => "t") false (k + 1)
        ⟨none, none, []⟩) =
        logLines (iterateRuns (fun _ => envAllMiss) "user" (fun _ => "t") false k
          ⟨none, none, []⟩) ++ tail) :=
  c9_ledger_header_once_append_only (fun _ => envAllMiss) "user" (fun _ => "t") false
    none [] 2 (by
      intro i hi
      refine ⟨⟨"t", "user", (runExtraction envAllMiss).followers,
        (runExtraction envAllMiss).following, 0⟩, ?_⟩
      rw [@scrape_lenient_miss envAllMiss "user" "t" "t" _ rfl])
